import Mathlib

/-!
A shallow embedding of the CircuitDraw schematic editor (`main.py`): the
scene-object hierarchy (`BaseObject` / `Module` / `Wire`), the wire routing
operations, and the `Canvas` interaction state machine, together with proofs
of the specification's claims about them.

Python objects are identified by a unique natural-number `id`; the Python
selection list `self.selected` (which stores object references) is modelled
as a list of these ids, and the Python `active` reference as an optional id.
-/

namespace CircuitDraw

/-- A canvas point, as the integer pixel coordinates used throughout `main.py`. -/
abbrev Point := Int × Int

/-- `MIN_SIZE = 5` (main.py line 9). -/
def MIN_SIZE : Int := 5

/-- A `QRect` as constructed by `QRect(x, y, w, h)`. -/
structure Rect where
  x : Int
  y : Int
  w : Int
  h : Int
deriving Repr, DecidableEq

/-- The rectangle `QRect(pos[0], pos[1], size[0], size[1])` computed by
`Module.update_rect` (main.py line 65). -/
def deriveRect (pos size : Point) : Rect :=
  ⟨pos.1, pos.2, size.1, size.2⟩

/-- `QRect.contains(px, py)` with `proper = False`, following Qt's
implementation: the stored corners are `x1 = x`, `x2 = x + w - 1` (and
likewise for y), the corners are swapped when `x2 < x1 - 1`, and the point
must lie inclusively between them on both axes. -/
def qrectContains (r : Rect) (px py : Int) : Bool :=
  let x1 := r.x
  let x2 := r.x + r.w - 1
  let y1 := r.y
  let y2 := r.y + r.h - 1
  let lo := if x2 < x1 - 1 then x2 else x1
  let hi := if x2 < x1 - 1 then x1 else x2
  let tp := if y2 < y1 - 1 then y2 else y1
  let bt := if y2 < y1 - 1 then y1 else y2
  decide (lo ≤ px) && decide (px ≤ hi) && decide (tp ≤ py) && decide (py ≤ bt)

/-- `BOX_RADIUS = 10` (main.py line 107): distance from a wire at which a
click still registers. -/
def BOX_RADIUS : Int := 10

/-- The per-segment test of `Wire.in_bounds` (main.py lines 111-116): the
point lies in the axis-aligned bounding box of the segment `(p0, p1)`
expanded by `BOX_RADIUS` on both axes. -/
def segBoxHit (p0 p1 pos : Point) : Bool :=
  decide (min p0.1 p1.1 - BOX_RADIUS ≤ pos.1) &&
  decide (pos.1 ≤ max p0.1 p1.1 + BOX_RADIUS) &&
  decide (min p0.2 p1.2 - BOX_RADIUS ≤ pos.2) &&
  decide (pos.2 ≤ max p0.2 p1.2 + BOX_RADIUS)

/-- The loop of `Wire.in_bounds` (main.py lines 108-117): scan every pair of
consecutive points; a missing `return` after the loop yields `None`, i.e.
falsy, so a wire with fewer than two points never hits. -/
def wireHitPoints (pos : Point) : List Point → Bool
  | p0 :: p1 :: rest => segBoxHit p0 p1 pos || wireHitPoints pos (p1 :: rest)
  | _ => false

/-- `Wire.align` (main.py lines 128-133): return `p` aligned with `q`. -/
def align (p q : Point) : Point :=
  if |p.1 - q.1| < |p.2 - q.2| then
    (q.1, p.2)
  else
    (p.1, q.2)

/-- The variant-specific data of a scene object: a `Module` carries its cached
rectangle (`self.rect`), a `Wire` its point list (`self.points`) and cached
polyline (`self.line`, whose vertices are `QPoint(p[0], p[1])` for `p` in
`points`, i.e. exactly the points). -/
inductive ObjVar
  | module (rect : Rect)
  | wire (points : List Point) (line : List Point)
deriving Repr, DecidableEq

/-- A scene object: the `BaseObject` fields (main.py lines 15-19) plus the
variant data. `id` models Python object identity. -/
structure Obj where
  id : Nat
  pos : Point
  size : Point
  label : Option String
  selected : Bool
  variant : ObjVar
deriving Repr, DecidableEq

/-- `Module.update_rect` / `Wire.update_line`: recompute the cached derived
geometry from the primary state. -/
def updateDerived (o : Obj) : Obj :=
  match o.variant with
  | .module _ => { o with variant := .module (deriveRect o.pos o.size) }
  | .wire pts _ => { o with variant := .wire pts pts }

/-- `Module()` (main.py lines 58-62): `BaseObject` defaults
(`pos = [200,200]`, `size = [100,100]`, `label = None`, `selected = False`)
followed by `update_rect`. The pre-`update_rect` rectangle is a placeholder
immediately overwritten. -/
def mkModule (i : Nat) : Obj :=
  updateDerived
    { id := i, pos := (200, 200), size := (100, 100), label := none,
      selected := false, variant := .module ⟨0, 0, 0, 0⟩ }

/-- `Wire(points)` (main.py lines 91-96): `BaseObject` defaults, a fresh copy
of the given points, then `update_line`. -/
def mkWire (i : Nat) (points : List Point) : Obj :=
  updateDerived
    { id := i, pos := (200, 200), size := (100, 100), label := none,
      selected := false, variant := .wire points [] }

/-- `BaseObject.select` (main.py lines 30-31). -/
def objSelect (b : Bool) (o : Obj) : Obj :=
  { o with selected := b }

/-- Assignment to `label`, as performed by `Canvas.update_prop`. -/
def objSetLabel (l : Option String) (o : Obj) : Obj :=
  { o with label := l }

/-- `move(dx, dy)`: `BaseObject.move` translates `pos`; `Module.move` also
recomputes the rectangle; `Wire.move` also translates every point and
recomputes the polyline (main.py lines 33-35, 78-80, 119-125). -/
def objMove (dx dy : Int) (o : Obj) : Obj :=
  let o1 : Obj := { o with pos := (o.pos.1 + dx, o.pos.2 + dy) }
  match o1.variant with
  | .module _ => updateDerived o1
  | .wire pts line =>
      updateDerived { o1 with variant := .wire (pts.map (fun p => (p.1 + dx, p.2 + dy))) line }

/-- `set_pos(pos)`: `BaseObject.set_pos` stores the position; `Module.set_pos`
also recomputes the rectangle; `Wire` inherits the base version unchanged
(main.py lines 37-38, 82-84). -/
def objSetPos (p : Point) (o : Obj) : Obj :=
  let o1 : Obj := { o with pos := p }
  match o1.variant with
  | .module _ => updateDerived o1
  | .wire _ _ => o1

/-- `set_size(size)`: `BaseObject.set_size` clamps each dimension to
`max(d, MIN_SIZE)`; `Module.set_size` also recomputes the rectangle; `Wire`
inherits the base version (main.py lines 40-41, 86-88). -/
def objSetSize (sz : Point) (o : Obj) : Obj :=
  let o1 : Obj := { o with size := (max sz.1 MIN_SIZE, max sz.2 MIN_SIZE) }
  match o1.variant with
  | .module _ => updateDerived o1
  | .wire _ _ => o1

/-- `Wire.add_point` (main.py lines 136-142): append `p` verbatim to an empty
point list, else append `align(p, points[-1])`; then `update_line`. Only
`Wire` defines this method, so a module is left unchanged. -/
def objAddPoint (p : Point) (o : Obj) : Obj :=
  match o.variant with
  | .module _ => o
  | .wire pts line =>
      match pts.getLast? with
      | none => updateDerived { o with variant := .wire (pts ++ [p]) line }
      | some q => updateDerived { o with variant := .wire (pts ++ [align p q]) line }

/-- Python `del lst[idx]` on a list, with Python's signed-index semantics: a
negative index counts from the end; an index out of range raises
`IndexError`, modelled as `none`. -/
def pyDelete (l : List Point) (idx : Int) : Option (List Point) :=
  let i : Int := if idx < 0 then idx + l.length else idx
  if 0 ≤ i ∧ i < (l.length : Int) then some (l.eraseIdx i.toNat) else none

/-- `Wire.remove_pt` (main.py lines 145-147): `del self.points[idx]` followed
by `update_line`. An out-of-range index raises `IndexError` (`none`) before
anything is mutated; only `Wire` defines this method. -/
def objRemovePt (idx : Int) (o : Obj) : Option Obj :=
  match o.variant with
  | .module _ => none
  | .wire pts line =>
      match pyDelete pts idx with
      | none => none
      | some pts1 => some (updateDerived { o with variant := .wire pts1 line })

/-- `in_bounds(pos)`: `Module.in_bounds` is `self.rect.contains(...)`
(main.py lines 75-76); `Wire.in_bounds` scans the segments
(main.py lines 106-117). -/
def objInBounds (o : Obj) (pos : Point) : Bool :=
  match o.variant with
  | .module rect => qrectContains rect pos.1 pos.2
  | .wire pts _ => wireHitPoints pos pts

/-- The `points` list of a wire (empty for a module, which has none). -/
def wirePoints (o : Obj) : List Point :=
  match o.variant with
  | .wire pts _ => pts
  | .module _ => []

/-- The cached polyline of a wire. -/
def wireLine (o : Obj) : List Point :=
  match o.variant with
  | .wire _ line => line
  | .module _ => []

/-- The Python check `o.__class__ == Wire`. -/
def isWire (o : Obj) : Bool :=
  match o.variant with
  | .wire _ _ => true
  | .module _ => false

/-- The Python check `o.__class__ == Module`. -/
def isModule (o : Obj) : Bool :=
  match o.variant with
  | .module _ => true
  | .wire _ _ => false

/-- `CanvasMode` (main.py lines 149-152). -/
inductive CanvasMode
  | normal
  | drawWire
  | drawModule
deriving Repr, DecidableEq

/-- The `Canvas` state (main.py lines 155-168): the scene list `objects`, the
selection list `selected` (object references, modelled by ids), the last
mouse position, the mode, and the `active` in-progress object (reference,
modelled by id). `nextId` supplies fresh identities for newly constructed
objects. The properties box is external UI and out of scope. -/
structure Canvas where
  objects : List Obj
  selected : List Nat
  lastMousePos : Option Point
  mode : CanvasMode
  active : Option Nat
  nextId : Nat
deriving Repr, DecidableEq

/-- The initial canvas (main.py lines 158-165): a test module and a test
wire, empty selection, `NORMAL` mode, no active object. -/
def initCanvas : Canvas :=
  { objects := [mkModule 0, mkWire 1 [(100, 200), (100, 350), (350, 350), (350, 250)]],
    selected := [], lastMousePos := none, mode := .normal, active := none, nextId := 2 }

/-- Logical key codes consumed by `keyPressEvent`. -/
inductive Key
  | keyW
  | keyM
  | backspace
  | escape
  | other
deriving Repr, DecidableEq

/-- Normalized input events. A press carries the modifier state that
`test_modifier` would observe while the handler runs. -/
inductive Event
  | press (pos : Point) (shift ctrl : Bool)
  | release (pos : Point)
  | doubleClick (pos : Point)
  | move (pos : Point) (buttonsHeld : Bool)
  | key (k : Key)
deriving Repr, DecidableEq

/-- One iteration of the Normal-mode press loop (main.py lines 203-213) on a
single object and the current selection list. `noMod` is
`not shift and not ctrl`. Python's `self.selected.remove(o)` removes the
first occurrence and would raise `ValueError` were the object absent;
`List.erase` agrees with it whenever the id is present, which the selection
invariant guarantees in every reachable state. -/
def pressStep (pos : Point) (noMod : Bool) (o : Obj) (sel : List Nat) : Obj × List Nat :=
  if objInBounds o pos then
    if o.selected = false then (objSelect true o, sel ++ [o.id])
    else (o, sel)
  else if o.selected && noMod then
    (objSelect false o, sel.erase o.id)
  else (o, sel)

/-- The full Normal-mode press scan: `for o in self.objects` with no early
exit, threading the mutated selection list through. -/
def pressScan (pos : Point) (noMod : Bool) : List Obj → List Nat → List Obj × List Nat
  | [], sel => ([], sel)
  | o :: rest, sel =>
      let head := pressStep pos noMod o sel
      let tail := pressScan pos noMod rest head.2
      (head.1 :: tail.1, tail.2)

/-- The effect of one press-scan iteration on the object alone. -/
def pressUpd (pos : Point) (noMod : Bool) (o : Obj) : Obj :=
  if objInBounds o pos then
    if o.selected = false then objSelect true o else o
  else if o.selected && noMod then objSelect false o
  else o

/-- The Backspace loop (main.py lines 313-318): indices are visited from high
to low, so later objects are deleted before earlier ones; recursing on the
tail first models that order. Each deletion also removes the object from the
selection list (`self.selected.remove`, see `pressStep` on `List.erase`). -/
def backspaceScan : List Obj → List Nat → List Obj × List Nat
  | [], sel => ([], sel)
  | o :: rest, sel =>
      let tail := backspaceScan rest sel
      if o.selected then (tail.1, tail.2.erase o.id)
      else (o :: tail.1, tail.2)

/-- In-place mutation of the scene object with identity `i` (ids are unique
in every reachable state, so exactly one object is affected). -/
def updateObj (objs : List Obj) (i : Nat) (f : Obj → Obj) : List Obj :=
  objs.map (fun o => if o.id = i then f o else o)

/-- Dereference an object id, i.e. follow the `self.active` reference into
the scene. -/
def findObj (objs : List Obj) (i : Nat) : Option Obj :=
  objs.find? (fun o => o.id = i)

/-- The Normal-mode drag loop (main.py lines 287-288): `for o in
self.selected: o.move(dx, dy)`. -/
def moveSelected (dx dy : Int) (sel : List Nat) (objs : List Obj) : List Obj :=
  sel.foldl (fun acc i => updateObj acc i (objMove dx dy)) objs

/-- `Canvas.mousePressEvent` (main.py lines 198-242). The properties-box
calls (`show_props` / `clear_props`) are external UI and omitted. -/
def mousePress (pos : Point) (shift ctrl : Bool) (s : Canvas) : Canvas :=
  let s0 : Canvas := { s with lastMousePos := some pos }
  match s0.mode with
  | .normal =>
      let r := pressScan pos (!shift && !ctrl) s0.objects s0.selected
      { s0 with objects := r.1, selected := r.2 }
  | .drawWire =>
      match s0.active with
      | none =>
          let w := mkWire s0.nextId [pos, pos]
          { s0 with objects := s0.objects ++ [w], active := some s0.nextId,
                    nextId := s0.nextId + 1 }
      | some i =>
          match findObj s0.objects i with
          | some o =>
              if isWire o then
                { s0 with objects := updateObj s0.objects i (objAddPoint pos) }
              else s0
          | none => s0
  | .drawModule =>
      match s0.active with
      | none =>
          let m := objSetSize (0, 0) (objSetPos pos (mkModule s0.nextId))
          { s0 with objects := s0.objects ++ [m], active := some s0.nextId,
                    nextId := s0.nextId + 1 }
      | some _ => s0

/-- `Canvas.mouseReleaseEvent` (main.py lines 244-257). -/
def mouseRelease (pos : Point) (s : Canvas) : Canvas :=
  let s0 : Canvas := { s with lastMousePos := some pos }
  match s0.mode with
  | .drawModule => { s0 with active := none, mode := .normal }
  | _ => s0

/-- `Canvas.mouseDoubleClickEvent` (main.py lines 259-275). Were `remove_pt`
to raise (an active wire with no points, unreachable), the exception would
abort the handler before `active` and `mode` are assigned, leaving the state
as it was after the `last_mouse_pos` update. -/
def mouseDoubleClick (pos : Point) (s : Canvas) : Canvas :=
  let s0 : Canvas := { s with lastMousePos := some pos }
  match s0.mode with
  | .drawWire =>
      match s0.active with
      | some i =>
          match findObj s0.objects i with
          | some o =>
              if isWire o then
                match objRemovePt (-1) o with
                | some _ =>
                    { s0 with
                        objects := updateObj s0.objects i
                          (fun w => (objRemovePt (-1) w).getD w),
                        active := none, mode := .normal }
                | none => s0
              else s0
          | none => s0
      | none => s0
  | _ => s0

/-- The mode-dependent body of `mouseMoveEvent` (main.py lines 285-296).
`none` models the `IndexError` escaping from `remove_pt(-1)` on an active
wire with no points (unreachable), which would skip the trailing
`last_mouse_pos` assignment. -/
def mouseMoveCore (pos : Point) (buttonsHeld : Bool) (dx dy : Int) (s0 : Canvas) :
    Option Canvas :=
  match s0.mode with
  | .normal =>
      if buttonsHeld then
        some { s0 with objects := moveSelected dx dy s0.selected s0.objects }
      else some s0
  | .drawWire =>
      match s0.active with
      | some i =>
          match findObj s0.objects i with
          | some o =>
              if isWire o then
                match objRemovePt (-1) o with
                | some _ =>
                    some { s0 with
                             objects := updateObj s0.objects i
                               (fun w => objAddPoint pos ((objRemovePt (-1) w).getD w)) }
                | none => none
              else some s0
          | none => some s0
      | none => some s0
  | .drawModule =>
      match s0.active with
      | some i =>
          match findObj s0.objects i with
          | some o =>
              if isModule o then
                some { s0 with
                         objects := updateObj s0.objects i
                           (objSetSize (pos.1 - o.pos.1, pos.2 - o.pos.2)) }
              else some s0
          | none => some s0
      | none => some s0

/-- `Canvas.mouseMoveEvent` (main.py lines 277-299): seed `last_mouse_pos` on
first use, compute the delta, run the mode-dependent body, then record the
new mouse position. -/
def mouseMove (pos : Point) (buttonsHeld : Bool) (s : Canvas) : Canvas :=
  let s0 : Canvas :=
    match s.lastMousePos with
    | none => { s with lastMousePos := some pos }
    | some _ => s
  let last := s0.lastMousePos.getD pos
  match mouseMoveCore pos buttonsHeld (pos.1 - last.1) (pos.2 - last.2) s0 with
  | some s1 => { s1 with lastMousePos := some pos }
  | none => s0

/-- `Canvas.keyPressEvent` (main.py lines 301-326): in Normal mode the keys
W, M and Backspace act (Escape falls through the Normal branch and does
nothing there); in any other mode only Escape acts. -/
def keyPress (k : Key) (s : Canvas) : Canvas :=
  match s.mode with
  | .normal =>
      match k with
      | .keyW => { s with mode := .drawWire, active := none }
      | .keyM => { s with mode := .drawModule, active := none }
      | .backspace =>
          let r := backspaceScan s.objects s.selected
          { s with objects := r.1, selected := r.2 }
      | _ => s
  | _ =>
      match k with
      | .escape => { s with mode := .normal, active := none }
      | _ => s

/-- Dispatch of one input event to its `Canvas` handler. -/
def step (e : Event) (s : Canvas) : Canvas :=
  match e with
  | .press pos shift ctrl => mousePress pos shift ctrl s
  | .release pos => mouseRelease pos s
  | .doubleClick pos => mouseDoubleClick pos s
  | .move pos held => mouseMove pos held s
  | .key k => keyPress k s

/-- States reachable from the initial canvas by any sequence of input
events. -/
inductive Reachable : Canvas → Prop
  | init : Reachable initCanvas
  | tr : ∀ (e : Event) (s : Canvas), Reachable s → Reachable (step e s)

/-! ### Basic facts about the object operations -/

lemma updateDerived_id (o : Obj) : (updateDerived o).id = o.id := by
  unfold updateDerived; split <;> rfl

lemma updateDerived_selected (o : Obj) : (updateDerived o).selected = o.selected := by
  unfold updateDerived; split <;> rfl

lemma updateDerived_pos (o : Obj) : (updateDerived o).pos = o.pos := by
  unfold updateDerived; split <;> rfl

lemma updateDerived_size (o : Obj) : (updateDerived o).size = o.size := by
  unfold updateDerived; split <;> rfl

/-- Claim C1: `add_point(p)` on a wire with a non-empty point list appends the
point aligned with the last existing point `q`: the appended point is
`(q.x, p.y)` when `|p.x - q.x| < |p.y - q.y|` and `(p.x, q.y)` otherwise, so
the final two points agree on at least one coordinate axis (they differ in at
most one axis). -/
theorem add_point_appends_aligned (o : Obj) (pts line : List Point) (p q : Point)
    (hvar : o.variant = .wire pts line) (hlast : pts.getLast? = some q) :
    wirePoints (objAddPoint p o) = pts ++ [align p q] ∧
    align p q = (if |p.1 - q.1| < |p.2 - q.2| then (q.1, p.2) else (p.1, q.2)) ∧
    ((align p q).1 = q.1 ∨ (align p q).2 = q.2) := by
  refine ⟨?_, rfl, ?_⟩
  · simp [objAddPoint, hvar, hlast, wirePoints, updateDerived]
  · unfold align
    split
    · exact Or.inl rfl
    · exact Or.inr rfl

theorem add_point_appends_aligned_witness :
    wirePoints (objAddPoint (200, 360) (mkWire 7 [(100, 200), (100, 350)])) =
      [(100, 200), (100, 350)] ++ [align (200, 360) (100, 350)] :=
  (add_point_appends_aligned (mkWire 7 [(100, 200), (100, 350)])
    [(100, 200), (100, 350)] [(100, 200), (100, 350)] (200, 360) (100, 350)
    rfl (by decide)).1

/-- Claim C2 counterexample: `remove_pt(5)` on a wire with a single point
raises `IndexError` (modelled by `none`); it is neither clamped nor a no-op
returning the wire unchanged. -/
theorem remove_pt_out_of_range_counterexample :
    objRemovePt 5 (mkWire 3 [(0, 0)]) = none ∧
    objRemovePt 5 (mkWire 3 [(0, 0)]) ≠ some (mkWire 3 [(0, 0)]) := by
  decide

/-- Claim C2 (amended): for every wire and every index that is out of range
under Python's signed-index semantics (`idx < -len` or `idx ≥ len`),
`remove_pt(idx)` raises `IndexError` to the caller (modelled by `none`); the
point list is left unchanged only because the exception aborts the call. -/
theorem remove_pt_out_of_range_raises (o : Obj) (pts line : List Point)
    (hvar : o.variant = .wire pts line) (idx : Int)
    (h : idx < -(pts.length : Int) ∨ (pts.length : Int) ≤ idx) :
    objRemovePt idx o = none := by
  have hdel : pyDelete pts idx = none := by
    simp only [pyDelete]
    rw [if_neg]
    by_cases hneg : idx < 0 <;> simp only [hneg, if_true, if_false] <;> omega
  simp [objRemovePt, hvar, hdel]

theorem remove_pt_out_of_range_raises_witness :
    objRemovePt 7 (mkWire 3 [(0, 0), (4, 4)]) = none :=
  remove_pt_out_of_range_raises (mkWire 3 [(0, 0), (4, 4)])
    [(0, 0), (4, 4)] [(0, 0), (4, 4)] rfl 7 (by decide)

/-- Claim C5: `set_size` clamps each requested dimension to
`max(d, MIN_SIZE)`, so after any `set_size` (including zero or negative
requests) both resulting dimensions are at least `MIN_SIZE`; the request is
never rejected. -/
theorem set_size_clamps (o : Obj) (sz : Point) :
    (objSetSize sz o).size = (max sz.1 MIN_SIZE, max sz.2 MIN_SIZE) ∧
    MIN_SIZE ≤ (objSetSize sz o).size.1 ∧ MIN_SIZE ≤ (objSetSize sz o).size.2 := by
  have hs : (objSetSize sz o).size = (max sz.1 MIN_SIZE, max sz.2 MIN_SIZE) := by
    simp only [objSetSize]
    split
    · rw [updateDerived_size]
    · rfl
  refine ⟨hs, ?_, ?_⟩ <;> rw [hs]
  · exact le_max_right _ _
  · exact le_max_right _ _

/-- The segment scan of `Wire.in_bounds` hits exactly when some pair of
consecutive points spans a box containing the query point. -/
lemma wireHitPoints_iff (pos : Point) (pts : List Point) :
    wireHitPoints pos pts = true ↔
      ∃ i : Nat, ∃ h : i + 1 < pts.length,
        segBoxHit (pts.get ⟨i, Nat.lt_of_succ_lt h⟩) (pts.get ⟨i + 1, h⟩) pos = true := by
  induction pts with
  | nil => simp [wireHitPoints]
  | cons p0 rest ih =>
      cases rest with
      | nil =>
          simp only [wireHitPoints, List.length_cons, List.length_nil]
          constructor
          · intro h; cases h
          · rintro ⟨i, hi, _⟩; omega
      | cons p1 rest2 =>
          have hunf : wireHitPoints pos (p0 :: p1 :: rest2) =
              (segBoxHit p0 p1 pos || wireHitPoints pos (p1 :: rest2)) := rfl
          rw [hunf, Bool.or_eq_true, ih]
          constructor
          · rintro (h0 | ⟨i, hi, hseg⟩)
            · exact ⟨0, by simp, by simpa using h0⟩
            · refine ⟨i + 1, by simpa using Nat.succ_lt_succ hi, ?_⟩
              simpa using hseg
          · rintro ⟨i, hi, hseg⟩
            cases i with
            | zero => exact Or.inl (by simpa using hseg)
            | succ j =>
                right
                refine ⟨j, by simpa using Nat.lt_of_succ_lt_succ hi, ?_⟩
                simpa using hseg

/-- Claim C6: a wire's `in_bounds(point)` is true exactly when the point lies
within the bounding box of some consecutive segment of its points expanded by
`BOX_RADIUS = 10` on both axes; in particular it is false whenever the wire
has fewer than two points. -/
theorem wire_hit_test_iff (o : Obj) (pts line : List Point) (pos : Point)
    (hvar : o.variant = .wire pts line) :
    (objInBounds o pos = true ↔
      ∃ i : Nat, ∃ h : i + 1 < pts.length,
        segBoxHit (pts.get ⟨i, Nat.lt_of_succ_lt h⟩) (pts.get ⟨i + 1, h⟩) pos = true) ∧
    (pts.length < 2 → objInBounds o pos = false) := by
  have hb : objInBounds o pos = wireHitPoints pos pts := by
    simp [objInBounds, hvar]
  constructor
  · rw [hb]; exact wireHitPoints_iff pos pts
  · intro hlen
    rw [hb]
    cases pts with
    | nil => rfl
    | cons a t =>
        cases t with
        | nil => rfl
        | cons b t2 => simp only [List.length_cons] at hlen; omega

theorem wire_hit_test_iff_witness :
    objInBounds (mkWire 9 [(0, 0)]) (0, 0) = false :=
  (wire_hit_test_iff (mkWire 9 [(0, 0)]) [(0, 0)] [(0, 0)] (0, 0) rfl).2 (by decide)

/-! ### Module creation in DrawingModule mode (C3) -/

/-- Claim C3 counterexample: at a concrete pointer-down in DrawingModule mode
with no active object, the module appended to the scene has size `(5, 5)` —
`set_size((0, 0))` clamps both dimensions to `MIN_SIZE` — not `(0, 0)` as the
claim states. -/
theorem draw_module_press_size_counterexample :
    ((step (.press (300, 300) false false)
        (step (.key .keyM) initCanvas)).objects.getLast?).map Obj.size = some (5, 5) ∧
    ((step (.press (300, 300) false false)
        (step (.key .keyM) initCanvas)).objects.getLast?).map Obj.size ≠ some (0, 0) := by
  decide

/-- Claim C3 (amended): on pointer-down in DrawingModule mode with no active
object, a new module is created at the click point via `set_pos` and
`set_size((0, 0))` — so its stored size is the clamped `(MIN_SIZE, MIN_SIZE)`,
not `(0, 0)` — the module is appended to the scene, `active` is set to it,
and the mode remains DrawingModule. -/
theorem draw_module_press_creates (s : Canvas) (pos : Point) (shift ctrl : Bool)
    (hm : s.mode = .drawModule) (ha : s.active = none) :
    (step (.press pos shift ctrl) s).objects
        = s.objects ++ [objSetSize (0, 0) (objSetPos pos (mkModule s.nextId))] ∧
    (objSetSize (0, 0) (objSetPos pos (mkModule s.nextId))).pos = pos ∧
    (objSetSize (0, 0) (objSetPos pos (mkModule s.nextId))).size = (MIN_SIZE, MIN_SIZE) ∧
    (objSetSize (0, 0) (objSetPos pos (mkModule s.nextId))).selected = false ∧
    (step (.press pos shift ctrl) s).active
        = some (objSetSize (0, 0) (objSetPos pos (mkModule s.nextId))).id ∧
    (step (.press pos shift ctrl) s).mode = .drawModule := by
  have hstep : step (.press pos shift ctrl) s =
      { s with lastMousePos := some pos,
               objects := s.objects ++ [objSetSize (0, 0) (objSetPos pos (mkModule s.nextId))],
               active := some s.nextId, nextId := s.nextId + 1 } := by
    simp only [step, mousePress, hm, ha]
  rw [hstep]
  refine ⟨rfl, rfl, ?_, rfl, rfl, hm⟩
  show ((max 0 MIN_SIZE : Int), (max 0 MIN_SIZE : Int)) = (MIN_SIZE, MIN_SIZE)
  norm_num [MIN_SIZE]

theorem draw_module_press_creates_witness :
    (objSetSize (0, 0) (objSetPos (300, 300)
        (mkModule (step (.key .keyM) initCanvas).nextId))).size = (MIN_SIZE, MIN_SIZE) :=
  (draw_module_press_creates (step (.key .keyM) initCanvas) (300, 300) false false
    (by decide) (by decide)).2.2.1

/-! ### Cached derived geometry (C9) -/

/-- The public mutators of a scene object, as exposed by `main.py`:
`move`, `set_pos`, `set_size`, `select`, label assignment, `add_point`,
`remove_pt`. -/
inductive Mutator
  | mMove (dx dy : Int)
  | mSetPos (p : Point)
  | mSetSize (sz : Point)
  | mSelect (b : Bool)
  | mSetLabel (l : Option String)
  | mAddPoint (p : Point)
  | mRemovePt (idx : Int)
deriving Repr, DecidableEq

/-- Apply a public mutator. A failing `remove_pt` raises before mutating
anything, leaving the object unchanged. -/
def applyMutator : Mutator → Obj → Obj
  | .mMove dx dy, o => objMove dx dy o
  | .mSetPos p, o => objSetPos p o
  | .mSetSize sz, o => objSetSize sz o
  | .mSelect b, o => objSelect b o
  | .mSetLabel l, o => objSetLabel l o
  | .mAddPoint p, o => objAddPoint p o
  | .mRemovePt idx, o => (objRemovePt idx o).getD o

/-- The cached derived geometry agrees with the pure function of the primary
state: a module's cached rectangle is the rectangle derived from its current
position and size, and a wire's cached polyline is exactly its point list
(one vertex per entry, same order). -/
def cacheOk (o : Obj) : Bool :=
  match o.variant with
  | .module rect => decide (rect = deriveRect o.pos o.size)
  | .wire pts line => decide (line = pts)

lemma cacheOk_updateDerived (o : Obj) : cacheOk (updateDerived o) = true := by
  unfold cacheOk updateDerived
  cases h : o.variant <;> simp

/-- Claim C9: every public mutator preserves consistency of the cached
derived geometry — after the mutation a module's cached rectangle equals the
rectangle derived from its position and size, and a wire's cached polyline
equals its point list, entry for entry in the same order. -/
theorem cache_consistency (m : Mutator) (o : Obj) (h : cacheOk o = true) :
    cacheOk (applyMutator m o) = true := by
  cases m with
  | mMove dx dy =>
      simp only [applyMutator, objMove]
      split <;> exact cacheOk_updateDerived _
  | mSetPos p =>
      simp only [applyMutator, objSetPos]
      split
      · exact cacheOk_updateDerived _
      · next pts lns heq =>
          simp only [cacheOk, heq]
          simpa [cacheOk, heq] using h
  | mSetSize sz =>
      simp only [applyMutator, objSetSize]
      split
      · exact cacheOk_updateDerived _
      · next pts lns heq =>
          simp only [cacheOk, heq]
          simpa [cacheOk, heq] using h
  | mSelect b =>
      simpa [applyMutator, objSelect, cacheOk] using h
  | mSetLabel l =>
      simpa [applyMutator, objSetLabel, cacheOk] using h
  | mAddPoint p =>
      simp only [applyMutator, objAddPoint]
      split
      · exact h
      · split <;> exact cacheOk_updateDerived _
  | mRemovePt idx =>
      simp only [applyMutator, objRemovePt]
      split
      · exact h
      · split
        · exact h
        · simpa using cacheOk_updateDerived _

theorem cache_consistency_witness :
    cacheOk (applyMutator (.mMove 3 4) (mkModule 0)) = true :=
  cache_consistency (.mMove 3 4) (mkModule 0) (by decide)

/-! ### The selection invariant machinery -/

/-- The identities of the scene objects, in scene order. -/
def idsOf (objs : List Obj) : List Nat :=
  objs.map Obj.id

/-- The identity and selection flag of each scene object, in scene order:
the part of the scene that the selection invariant observes. -/
def skel (objs : List Obj) : List (Nat × Bool) :=
  objs.map (fun o => (o.id, o.selected))

/-- Well-formedness of a canvas with respect to selection and identity:
scene ids are distinct (Python object identity), the selection list has no
duplicates, an object's `selected` flag agrees with its membership in the
selection list, every selected id denotes a scene object, and `nextId` is
fresh. -/
structure SelInv (s : Canvas) : Prop where
  nodupIds : (idsOf s.objects).Nodup
  nodupSel : s.selected.Nodup
  flagMem : ∀ o, o ∈ s.objects → (o.selected = true ↔ o.id ∈ s.selected)
  selObj : ∀ i, i ∈ s.selected → i ∈ idsOf s.objects
  fresh : ∀ o, o ∈ s.objects → o.id < s.nextId

lemma idsOf_of_skel {objs1 objs2 : List Obj} (h : skel objs1 = skel objs2) :
    idsOf objs1 = idsOf objs2 := by
  have := congrArg (List.map Prod.fst) h
  simpa [skel, idsOf, List.map_map, Function.comp] using this

/-- `SelInv` only observes the skeleton of the scene, the selection list and
(monotonically) `nextId`. -/
lemma SelInv.transfer {s s1 : Canvas} (h : SelInv s)
    (hobj : skel s1.objects = skel s.objects)
    (hsel : s1.selected = s.selected)
    (hid : s.nextId ≤ s1.nextId) : SelInv s1 := by
  have hids : idsOf s1.objects = idsOf s.objects := idsOf_of_skel hobj
  refine ⟨hids ▸ h.nodupIds, hsel ▸ h.nodupSel, ?_, ?_, ?_⟩
  · intro o ho
    have hmem : (o.id, o.selected) ∈ skel s.objects := by
      rw [← hobj]
      exact List.mem_map_of_mem _ ho
    rcases List.mem_map.mp hmem with ⟨o2, ho2, heq⟩
    have h1 : o2.id = o.id := congrArg Prod.fst heq
    have h2 : o2.selected = o.selected := congrArg Prod.snd heq
    rw [hsel, ← h1, ← h2]
    exact h.flagMem o2 ho2
  · intro i hi
    rw [hids]
    exact h.selObj i (hsel ▸ hi)
  · intro o ho
    have hmem : (o.id, o.selected) ∈ skel s.objects := by
      rw [← hobj]
      exact List.mem_map_of_mem _ ho
    rcases List.mem_map.mp hmem with ⟨o2, ho2, heq⟩
    have h1 : o2.id = o.id := congrArg Prod.fst heq
    calc o.id = o2.id := h1.symm
      _ < s.nextId := h.fresh o2 ho2
      _ ≤ s1.nextId := hid

/-- A pointwise id- and flag-preserving map leaves the skeleton unchanged. -/
lemma skel_map_of_preserve (g : Obj → Obj)
    (hg : ∀ o, (g o).id = o.id ∧ (g o).selected = o.selected) (objs : List Obj) :
    skel (objs.map g) = skel objs := by
  induction objs with
  | nil => rfl
  | cons a t ih =>
      simp only [skel, List.map_cons, List.cons.injEq] at ih ⊢
      exact ⟨by rw [(hg a).1, (hg a).2], ih⟩

lemma skel_updateObj (objs : List Obj) (i : Nat) (f : Obj → Obj)
    (hf : ∀ o, (f o).id = o.id ∧ (f o).selected = o.selected) :
    skel (updateObj objs i f) = skel objs := by
  apply skel_map_of_preserve
  intro o
  by_cases h : o.id = i <;> simp [h, hf o]

lemma skel_moveSelected (dx dy : Int) (sel : List Nat) (objs : List Obj)
    (hmv : ∀ o, (objMove dx dy o).id = o.id ∧ (objMove dx dy o).selected = o.selected) :
    skel (moveSelected dx dy sel objs) = skel objs := by
  induction sel generalizing objs with
  | nil => rfl
  | cons i t ih =>
      show skel (moveSelected dx dy t (updateObj objs i (objMove dx dy))) = skel objs
      rw [ih (updateObj objs i (objMove dx dy))]
      exact skel_updateObj objs i _ hmv

lemma objMove_preserve (dx dy : Int) (o : Obj) :
    (objMove dx dy o).id = o.id ∧ (objMove dx dy o).selected = o.selected := by
  simp only [objMove]
  split <;> simp [updateDerived_id, updateDerived_selected]

lemma objSetPos_preserve (p : Point) (o : Obj) :
    (objSetPos p o).id = o.id ∧ (objSetPos p o).selected = o.selected := by
  simp only [objSetPos]
  split <;> simp [updateDerived_id, updateDerived_selected]

lemma objSetSize_preserve (sz : Point) (o : Obj) :
    (objSetSize sz o).id = o.id ∧ (objSetSize sz o).selected = o.selected := by
  simp only [objSetSize]
  split <;> simp [updateDerived_id, updateDerived_selected]

lemma objAddPoint_preserve (p : Point) (o : Obj) :
    (objAddPoint p o).id = o.id ∧ (objAddPoint p o).selected = o.selected := by
  simp only [objAddPoint]
  split
  · exact ⟨rfl, rfl⟩
  · split <;> simp [updateDerived_id, updateDerived_selected]

lemma objRemovePt_getD_preserve (idx : Int) (o : Obj) :
    ((objRemovePt idx o).getD o).id = o.id ∧
    ((objRemovePt idx o).getD o).selected = o.selected := by
  simp only [objRemovePt]
  split
  · simp
  · split
    · simp
    · simp [updateDerived_id, updateDerived_selected]

/-! ### Facts about the Normal-mode press scan -/

lemma pressStep_fst (pos : Point) (noMod : Bool) (o : Obj) (sel : List Nat) :
    (pressStep pos noMod o sel).1 = pressUpd pos noMod o := by
  simp only [pressStep, pressUpd]
  split
  · split <;> rfl
  · split <;> rfl

lemma pressUpd_id (pos : Point) (noMod : Bool) (o : Obj) :
    (pressUpd pos noMod o).id = o.id := by
  simp only [pressUpd]
  split
  · split <;> rfl
  · split <;> rfl

/-- The objects produced by the Normal-mode press scan: every object is
visited and updated by the per-object rule, with no early exit. -/
lemma pressScan_fst (pos : Point) (noMod : Bool) (objs : List Obj) :
    ∀ sel, (pressScan pos noMod objs sel).1 = objs.map (pressUpd pos noMod) := by
  induction objs with
  | nil => intro sel; rfl
  | cons o rest ih =>
      intro sel
      simp only [pressScan, List.map_cons]
      rw [pressStep_fst, ih]

/-- The selection list after the scan agrees with the one before on every id
that does not belong to a scanned object. -/
lemma pressScan_mem_stable (pos : Point) (noMod : Bool) (objs : List Obj) :
    ∀ sel j, j ∉ idsOf objs → (j ∈ (pressScan pos noMod objs sel).2 ↔ j ∈ sel) := by
  induction objs with
  | nil => intro sel j _; exact Iff.rfl
  | cons o rest ih =>
      intro sel j hj
      have hjo : j ≠ o.id := by
        intro h
        exact hj (by simp [idsOf, h])
      have hjr : j ∉ idsOf rest := by
        intro h
        exact hj (by simp [idsOf] at h ⊢; exact Or.inr h)
      show j ∈ (pressScan pos noMod rest (pressStep pos noMod o sel).2).2 ↔ j ∈ sel
      rw [ih (pressStep pos noMod o sel).2 j hjr]
      simp only [pressStep]
      split
      · split
        · simp [hjo]
        · exact Iff.rfl
      · split
        · exact List.mem_erase_of_ne hjo
        · exact Iff.rfl

/-- The main induction for the selection invariant through the Normal-mode
press scan: distinct scene ids, a duplicate-free selection list, and
flag-membership agreement are all preserved, and the resulting selection only
contains old selected ids and scanned object ids. -/
lemma pressScan_inv (pos : Point) (noMod : Bool) (objs : List Obj) :
    ∀ sel, (idsOf objs).Nodup → sel.Nodup →
      (∀ o, o ∈ objs → (o.selected = true ↔ o.id ∈ sel)) →
      ((pressScan pos noMod objs sel).2.Nodup ∧
       (∀ o, o ∈ (pressScan pos noMod objs sel).1 →
          (o.selected = true ↔ o.id ∈ (pressScan pos noMod objs sel).2)) ∧
       (∀ j, j ∈ (pressScan pos noMod objs sel).2 → j ∈ sel ∨ j ∈ idsOf objs)) := by
  induction objs with
  | nil =>
      intro sel _ h2 _
      refine ⟨h2, ?_, fun j hj => Or.inl hj⟩
      intro o ho
      simp only [pressScan] at ho
      cases ho
  | cons o rest ih =>
      intro sel hids hsel hflag
      have hoid : o.id ∉ idsOf rest := by
        have := hids
        simp only [idsOf, List.map_cons, List.nodup_cons] at this
        exact this.1
      have hidsrest : (idsOf rest).Nodup := by
        have := hids
        simp only [idsOf, List.map_cons, List.nodup_cons] at this
        exact this.2
      -- Common combination step, given the effect of the head iteration.
      have combine : ∀ (o1 : Obj) (sel1 : List Nat),
          pressStep pos noMod o sel = (o1, sel1) →
          o1.id = o.id →
          sel1.Nodup →
          (∀ x, x ∈ rest → (x.selected = true ↔ x.id ∈ sel1)) →
          (o1.selected = true ↔ o1.id ∈ sel1) →
          (∀ j, j ∈ sel1 → j ∈ sel ∨ j = o.id) →
          ((pressScan pos noMod (o :: rest) sel).2.Nodup ∧
           (∀ x, x ∈ (pressScan pos noMod (o :: rest) sel).1 →
              (x.selected = true ↔ x.id ∈ (pressScan pos noMod (o :: rest) sel).2)) ∧
           (∀ j, j ∈ (pressScan pos noMod (o :: rest) sel).2 →
              j ∈ sel ∨ j ∈ idsOf (o :: rest))) := by
        intro o1 sel1 hps hid1 hnd1 hrest1 hhead1 hsub1
        have hscan : pressScan pos noMod (o :: rest) sel =
            ((pressScan pos noMod rest sel1).1.cons o1,
             (pressScan pos noMod rest sel1).2) := by
          simp only [pressScan, hps]
        obtain ⟨rnd, rflag, rsub⟩ := ih sel1 hidsrest hnd1 hrest1
        rw [hscan]
        refine ⟨rnd, ?_, ?_⟩
        · intro x hx
          rcases List.mem_cons.mp hx with hx | hx
          · subst hx
            rw [hhead1]
            rw [hid1]
            exact (pressScan_mem_stable pos noMod rest sel1 o.id hoid).symm
          · exact rflag x hx
        · intro j hj
          rcases rsub j hj with hj1 | hj1
          · rcases hsub1 j hj1 with hj2 | hj2
            · exact Or.inl hj2
            · exact Or.inr (by simp [idsOf, hj2])
          · refine Or.inr ?_
            simp only [idsOf, List.map_cons, List.mem_cons]
            exact Or.inr (by simpa [idsOf] using hj1)
      by_cases hhit : objInBounds o pos = true
      · by_cases hso : o.selected = false
        · -- hit, not yet selected: select and append to the selection list
          have hnotmem : o.id ∉ sel := by
            intro hmem
            have := (hflag o (List.mem_cons_self o rest)).mpr hmem
            rw [hso] at this
            cases this
          refine combine (objSelect true o) (sel ++ [o.id])
            (by simp [pressStep, hhit, hso]) rfl ?_ ?_ ?_ ?_
          · rw [List.nodup_append]
            refine ⟨hsel, List.nodup_singleton _, ?_⟩
            intro a ha hb
            rw [List.mem_singleton] at hb
            exact hnotmem (hb ▸ ha)
          · intro x hx
            have hx1 := hflag x (List.mem_cons_of_mem o hx)
            have hxo : x.id ≠ o.id := by
              intro h
              exact hoid (h ▸ List.mem_map_of_mem Obj.id hx)
            simp [hx1, hxo]
          · simp [objSelect]
          · intro j hj
            rcases List.mem_append.mp hj with hj | hj
            · exact Or.inl hj
            · exact Or.inr (by simpa using hj)
        · -- hit and already selected: not toggled off
          have hso1 : o.selected = true := by
            cases h : o.selected
            · exact absurd h hso
            · rfl
          refine combine o sel (by simp [pressStep, hhit, hso]) rfl hsel
            (fun x hx => hflag x (List.mem_cons_of_mem o hx))
            (hflag o (List.mem_cons_self o rest)) (fun j hj => Or.inl hj)
      · by_cases hsm : (o.selected && noMod) = true
        · -- not hit, selected, no modifier: deselect and remove from selection
          have hso1 : o.selected = true := (Bool.and_eq_true _ _ |>.mp hsm).1
          refine combine (objSelect false o) (sel.erase o.id)
            (by simp [pressStep, hhit, hsm]) rfl (hsel.erase _) ?_ ?_ ?_
          · intro x hx
            have hx1 := hflag x (List.mem_cons_of_mem o hx)
            have hxo : x.id ≠ o.id := by
              intro h
              exact hoid (h ▸ List.mem_map_of_mem Obj.id hx)
            rw [hx1]
            exact (List.mem_erase_of_ne hxo).symm
          · simp only [objSelect, Bool.false_eq_true, false_iff]
            intro hmem
            rcases (hsel.mem_erase_iff).mp hmem with ⟨hne, _⟩
            exact hne rfl
          · intro j hj
            exact Or.inl (List.mem_of_mem_erase hj)
        · -- not hit, and either unselected or a modifier held: untouched
          refine combine o sel (by simp [pressStep, hhit, hsm]) rfl hsel
            (fun x hx => hflag x (List.mem_cons_of_mem o hx))
            (hflag o (List.mem_cons_self o rest)) (fun j hj => Or.inl hj)

/-! ### Facts about the Backspace deletion scan -/

/-- The Backspace scan keeps exactly the unselected objects, in order. -/
lemma backspaceScan_fst (objs : List Obj) :
    ∀ sel, (backspaceScan objs sel).1 = objs.filter (fun o => !o.selected) := by
  induction objs with
  | nil => intro sel; rfl
  | cons o rest ih =>
      intro sel
      cases hos : o.selected <;>
        simp [backspaceScan, hos, List.filter_cons, ih]

/-- The Backspace scan's effect on the selection list: an id survives exactly
when it was there before and belongs to no selected scanned object. -/
lemma backspaceScan_snd (objs : List Obj) :
    ∀ sel, sel.Nodup →
      ((backspaceScan objs sel).2.Nodup ∧
       (∀ j, j ∈ (backspaceScan objs sel).2 ↔
          (j ∈ sel ∧ ∀ o, o ∈ objs → o.selected = true → o.id ≠ j))) := by
  induction objs with
  | nil =>
      intro sel h
      refine ⟨h, fun j => ?_⟩
      simp [backspaceScan]
  | cons o rest ih =>
      intro sel h
      obtain ⟨hnd, hmem⟩ := ih sel h
      cases hos : o.selected
      · have hscan : backspaceScan (o :: rest) sel =
            ((backspaceScan rest sel).1.cons o, (backspaceScan rest sel).2) := by
          simp [backspaceScan, hos]
        rw [hscan]
        refine ⟨hnd, fun j => ?_⟩
        rw [hmem j]
        constructor
        · rintro ⟨hj, hall⟩
          refine ⟨hj, fun x hx hsx => ?_⟩
          rcases List.mem_cons.mp hx with hx | hx
          · subst hx
            rw [hos] at hsx
            cases hsx
          · exact hall x hx hsx
        · rintro ⟨hj, hall⟩
          exact ⟨hj, fun x hx hsx => hall x (List.mem_cons_of_mem o hx) hsx⟩
      · have hscan : backspaceScan (o :: rest) sel =
            ((backspaceScan rest sel).1, (backspaceScan rest sel).2.erase o.id) := by
          simp [backspaceScan, hos]
        rw [hscan]
        refine ⟨hnd.erase _, fun j => ?_⟩
        rw [hnd.mem_erase_iff, hmem j]
        constructor
        · rintro ⟨hne, hj, hall⟩
          refine ⟨hj, fun x hx hsx => ?_⟩
          rcases List.mem_cons.mp hx with hx | hx
          · subst hx
            exact fun he => hne he.symm
          · exact hall x hx hsx
        · rintro ⟨hj, hall⟩
          refine ⟨?_, hj, fun x hx hsx => hall x (List.mem_cons_of_mem o hx) hsx⟩
          intro he
          exact hall o (List.mem_cons_self o rest) hos he.symm

/-! ### Preservation of the selection invariant by every event handler -/

lemma idsOf_map_of_id_preserve (g : Obj → Obj) (hg : ∀ o, (g o).id = o.id)
    (objs : List Obj) : idsOf (objs.map g) = idsOf objs := by
  induction objs with
  | nil => rfl
  | cons a t ih =>
      simp only [idsOf, List.map_cons, List.cons.injEq] at ih ⊢
      exact ⟨hg a, ih⟩

lemma removeAdd_preserve (pos : Point) (w : Obj) :
    (objAddPoint pos ((objRemovePt (-1) w).getD w)).id = w.id ∧
    (objAddPoint pos ((objRemovePt (-1) w).getD w)).selected = w.selected := by
  obtain ⟨h1, h2⟩ := objRemovePt_getD_preserve (-1) w
  obtain ⟨h3, h4⟩ := objAddPoint_preserve pos ((objRemovePt (-1) w).getD w)
  exact ⟨h3.trans h1, h4.trans h2⟩

/-- Appending a freshly constructed, unselected object with identity
`s.nextId` and bumping `nextId` preserves the selection invariant. -/
lemma selInv_append_fresh {s s1 : Canvas} (h : SelInv s) (w : Obj)
    (hwid : w.id = s.nextId) (hwsel : w.selected = false)
    (hobj : s1.objects = s.objects ++ [w])
    (hsel : s1.selected = s.selected)
    (hnext : s1.nextId = s.nextId + 1) : SelInv s1 := by
  have hfresh_not : s.nextId ∉ idsOf s.objects := by
    intro hmem
    obtain ⟨o2, ho2, hid2⟩ := List.mem_map.mp hmem
    have := h.fresh o2 ho2
    omega
  have hids : idsOf s1.objects = idsOf s.objects ++ [w.id] := by
    rw [hobj]
    simp [idsOf]
  refine ⟨?_, hsel ▸ h.nodupSel, ?_, ?_, ?_⟩
  · rw [hids, List.nodup_append]
    refine ⟨h.nodupIds, List.nodup_singleton _, ?_⟩
    intro a ha hb
    rw [List.mem_singleton] at hb
    subst hb
    rw [hwid] at ha
    exact hfresh_not ha
  · intro o ho
    rw [hobj] at ho
    rcases List.mem_append.mp ho with ho1 | ho1
    · rw [hsel]
      exact h.flagMem o ho1
    · rw [List.mem_singleton] at ho1
      subst ho1
      rw [hwsel, hsel, hwid]
      constructor
      · intro hfalse
        exact Bool.noConfusion hfalse
      · intro hmem
        exact absurd (h.selObj _ hmem) hfresh_not
  · intro i hi
    rw [hsel] at hi
    rw [hids]
    exact List.mem_append.mpr (Or.inl (h.selObj i hi))
  · intro o ho
    rw [hobj] at ho
    rw [hnext]
    rcases List.mem_append.mp ho with ho1 | ho1
    · have := h.fresh o ho1
      omega
    · rw [List.mem_singleton] at ho1
      subst ho1
      rw [hwid]
      omega

lemma selInv_mousePress (pos : Point) (shift ctrl : Bool) (s : Canvas) (h : SelInv s) :
    SelInv (mousePress pos shift ctrl s) := by
  cases hm : s.mode with
  | normal =>
      have hred : mousePress pos shift ctrl s =
          { s with lastMousePos := some pos,
                   objects := (pressScan pos (!shift && !ctrl) s.objects s.selected).1,
                   selected := (pressScan pos (!shift && !ctrl) s.objects s.selected).2 } := by
        simp only [mousePress, hm]
      rw [hred]
      obtain ⟨rnd, rflag, rsub⟩ := pressScan_inv pos (!shift && !ctrl) s.objects s.selected
        h.nodupIds h.nodupSel h.flagMem
      have hids : idsOf (pressScan pos (!shift && !ctrl) s.objects s.selected).1
          = idsOf s.objects := by
        rw [pressScan_fst]
        exact idsOf_map_of_id_preserve _ (pressUpd_id pos _) s.objects
      refine ⟨hids.symm ▸ h.nodupIds, rnd, rflag, ?_, ?_⟩
      · intro i hi
        have hi2 : i ∈ (pressScan pos (!shift && !ctrl) s.objects s.selected).2 := hi
        show i ∈ idsOf (pressScan pos (!shift && !ctrl) s.objects s.selected).1
        rw [hids]
        rcases rsub i hi2 with h1 | h1
        · exact h.selObj i h1
        · exact h1
      · intro o ho
        have ho2 : o ∈ (pressScan pos (!shift && !ctrl) s.objects s.selected).1 := ho
        rw [pressScan_fst] at ho2
        obtain ⟨x, hx, hxo⟩ := List.mem_map.mp ho2
        show o.id < s.nextId
        rw [← hxo, pressUpd_id]
        exact h.fresh x hx
  | drawWire =>
      cases ha : s.active with
      | none =>
          have hred : mousePress pos shift ctrl s =
              { s with lastMousePos := some pos,
                       objects := s.objects ++ [mkWire s.nextId [pos, pos]],
                       active := some s.nextId, nextId := s.nextId + 1 } := by
            simp only [mousePress, hm, ha]
          rw [hred]
          exact selInv_append_fresh h (mkWire s.nextId [pos, pos]) rfl rfl rfl rfl rfl
      | some i =>
          cases hf : findObj s.objects i with
          | none =>
              have hred : mousePress pos shift ctrl s = { s with lastMousePos := some pos } := by
                simp only [mousePress, hm, ha, hf]
              rw [hred]
              exact h.transfer rfl rfl le_rfl
          | some o =>
              by_cases hw : isWire o = true
              · have hred : mousePress pos shift ctrl s =
                    { s with lastMousePos := some pos,
                             objects := updateObj s.objects i (objAddPoint pos) } := by
                  simp only [mousePress, hm, ha, hf, hw, if_true]
                rw [hred]
                exact h.transfer (skel_updateObj _ _ _ (objAddPoint_preserve pos)) rfl le_rfl
              · have hwf : isWire o = false := by simpa using hw
                have hred : mousePress pos shift ctrl s =
                    { s with lastMousePos := some pos } := by
                  simp [mousePress, hm, ha, hf, hwf]
                rw [hred]
                exact h.transfer rfl rfl le_rfl
  | drawModule =>
      cases ha : s.active with
      | none =>
          have hred : mousePress pos shift ctrl s =
              { s with lastMousePos := some pos,
                       objects := s.objects
                         ++ [objSetSize (0, 0) (objSetPos pos (mkModule s.nextId))],
                       active := some s.nextId, nextId := s.nextId + 1 } := by
            simp only [mousePress, hm, ha]
          rw [hred]
          exact selInv_append_fresh h _ rfl rfl rfl rfl rfl
      | some i =>
          have hred : mousePress pos shift ctrl s = { s with lastMousePos := some pos } := by
            simp only [mousePress, hm, ha]
          rw [hred]
          exact h.transfer rfl rfl le_rfl

lemma selInv_mouseRelease (pos : Point) (s : Canvas) (h : SelInv s) :
    SelInv (mouseRelease pos s) := by
  cases hm : s.mode with
  | normal =>
      have hred : mouseRelease pos s = { s with lastMousePos := some pos } := by
        simp only [mouseRelease, hm]
      rw [hred]
      exact h.transfer rfl rfl le_rfl
  | drawWire =>
      have hred : mouseRelease pos s = { s with lastMousePos := some pos } := by
        simp only [mouseRelease, hm]
      rw [hred]
      exact h.transfer rfl rfl le_rfl
  | drawModule =>
      have hred : mouseRelease pos s =
          { s with lastMousePos := some pos, active := none, mode := .normal } := by
        simp only [mouseRelease, hm]
      rw [hred]
      exact h.transfer rfl rfl le_rfl

lemma selInv_mouseDoubleClick (pos : Point) (s : Canvas) (h : SelInv s) :
    SelInv (mouseDoubleClick pos s) := by
  cases hm : s.mode with
  | normal =>
      have hred : mouseDoubleClick pos s = { s with lastMousePos := some pos } := by
        simp only [mouseDoubleClick, hm]
      rw [hred]
      exact h.transfer rfl rfl le_rfl
  | drawModule =>
      have hred : mouseDoubleClick pos s = { s with lastMousePos := some pos } := by
        simp only [mouseDoubleClick, hm]
      rw [hred]
      exact h.transfer rfl rfl le_rfl
  | drawWire =>
      cases ha : s.active with
      | none =>
          have hred : mouseDoubleClick pos s = { s with lastMousePos := some pos } := by
            simp only [mouseDoubleClick, hm, ha]
          rw [hred]
          exact h.transfer rfl rfl le_rfl
      | some i =>
          cases hf : findObj s.objects i with
          | none =>
              have hred : mouseDoubleClick pos s = { s with lastMousePos := some pos } := by
                simp only [mouseDoubleClick, hm, ha, hf]
              rw [hred]
              exact h.transfer rfl rfl le_rfl
          | some o =>
              by_cases hw : isWire o = true
              · cases hr : objRemovePt (-1) o with
                | some o1 =>
                    have hred : mouseDoubleClick pos s =
                        { s with lastMousePos := some pos,
                                 objects := updateObj s.objects i
                                   (fun w => (objRemovePt (-1) w).getD w),
                                 active := none, mode := .normal } := by
                      simp only [mouseDoubleClick, hm, ha, hf, hw, if_true, hr]
                    rw [hred]
                    exact h.transfer
                      (skel_updateObj _ _ _ (objRemovePt_getD_preserve (-1))) rfl le_rfl
                | none =>
                    have hred : mouseDoubleClick pos s = { s with lastMousePos := some pos } := by
                      simp only [mouseDoubleClick, hm, ha, hf, hw, if_true, hr]
                    rw [hred]
                    exact h.transfer rfl rfl le_rfl
              · have hwf : isWire o = false := by simpa using hw
                have hred : mouseDoubleClick pos s = { s with lastMousePos := some pos } := by
                  simp [mouseDoubleClick, hm, ha, hf, hwf]
                rw [hred]
                exact h.transfer rfl rfl le_rfl

lemma mouseMoveCore_fields {pos : Point} {b : Bool} {dx dy : Int} {s0 s1 : Canvas}
    (hc : mouseMoveCore pos b dx dy s0 = some s1) :
    skel s1.objects = skel s0.objects ∧ s1.selected = s0.selected ∧
    s1.nextId = s0.nextId ∧ s1.mode = s0.mode ∧ s1.active = s0.active := by
  unfold mouseMoveCore at hc
  split at hc
  · -- Normal mode
    split at hc
    · injection hc with hc
      subst hc
      exact ⟨skel_moveSelected _ _ _ _ (objMove_preserve _ _), rfl, rfl, rfl, rfl⟩
    · injection hc with hc
      subst hc
      exact ⟨rfl, rfl, rfl, rfl, rfl⟩
  · -- DrawWire mode
    split at hc
    · split at hc
      · split at hc
        · split at hc
          · injection hc with hc
            subst hc
            exact ⟨skel_updateObj _ _ _ (removeAdd_preserve pos), rfl, rfl, rfl, rfl⟩
          · exact Option.noConfusion hc
        · injection hc with hc
          subst hc
          exact ⟨rfl, rfl, rfl, rfl, rfl⟩
      · injection hc with hc
        subst hc
        exact ⟨rfl, rfl, rfl, rfl, rfl⟩
    · injection hc with hc
      subst hc
      exact ⟨rfl, rfl, rfl, rfl, rfl⟩
  · -- DrawModule mode
    split at hc
    · split at hc
      · split at hc
        · injection hc with hc
          subst hc
          exact ⟨skel_updateObj _ _ _ (objSetSize_preserve _), rfl, rfl, rfl, rfl⟩
        · injection hc with hc
          subst hc
          exact ⟨rfl, rfl, rfl, rfl, rfl⟩
      · injection hc with hc
        subst hc
        exact ⟨rfl, rfl, rfl, rfl, rfl⟩
    · injection hc with hc
      subst hc
      exact ⟨rfl, rfl, rfl, rfl, rfl⟩

lemma mouseMove_fields (pos : Point) (b : Bool) (s : Canvas) :
    skel (mouseMove pos b s).objects = skel s.objects ∧
    (mouseMove pos b s).selected = s.selected ∧
    (mouseMove pos b s).nextId = s.nextId ∧
    (mouseMove pos b s).mode = s.mode ∧
    (mouseMove pos b s).active = s.active := by
  unfold mouseMove
  cases hlmp : s.lastMousePos with
  | none =>
      simp only
      split
      · next s1 hc =>
          obtain ⟨h1, h2, h3, h4, h5⟩ := mouseMoveCore_fields hc
          exact ⟨h1, h2, h3, h4, h5⟩
      · exact ⟨rfl, rfl, rfl, rfl, rfl⟩
  | some lp =>
      simp only
      split
      · next s1 hc =>
          obtain ⟨h1, h2, h3, h4, h5⟩ := mouseMoveCore_fields hc
          exact ⟨h1, h2, h3, h4, h5⟩
      · exact ⟨rfl, rfl, rfl, rfl, rfl⟩

lemma selInv_mouseMove (pos : Point) (b : Bool) (s : Canvas) (h : SelInv s) :
    SelInv (mouseMove pos b s) := by
  obtain ⟨h1, h2, h3, _, _⟩ := mouseMove_fields pos b s
  exact h.transfer h1 h2 (le_of_eq h3.symm)

lemma selInv_keyPress (k : Key) (s : Canvas) (h : SelInv s) : SelInv (keyPress k s) := by
  cases hm : s.mode with
  | normal =>
      cases k with
      | keyW =>
          have hred : keyPress .keyW s = { s with mode := .drawWire, active := none } := by
            simp only [keyPress, hm]
          rw [hred]
          exact h.transfer rfl rfl le_rfl
      | keyM =>
          have hred : keyPress .keyM s = { s with mode := .drawModule, active := none } := by
            simp only [keyPress, hm]
          rw [hred]
          exact h.transfer rfl rfl le_rfl
      | backspace =>
          have hred : keyPress .backspace s =
              { s with objects := (backspaceScan s.objects s.selected).1,
                       selected := (backspaceScan s.objects s.selected).2 } := by
            simp only [keyPress, hm]
          rw [hred]
          obtain ⟨rnd, rmem⟩ := backspaceScan_snd s.objects s.selected h.nodupSel
          have hempty : (backspaceScan s.objects s.selected).2 = [] := by
            apply List.eq_nil_iff_forall_not_mem.mpr
            intro j hj
            obtain ⟨hjsel, hall⟩ := (rmem j).mp hj
            obtain ⟨o2, ho2, hid2⟩ := List.mem_map.mp (h.selObj j hjsel)
            exact hall o2 ho2 ((h.flagMem o2 ho2).mpr (hid2 ▸ hjsel)) hid2
          have hfst := backspaceScan_fst s.objects s.selected
          refine ⟨?_, ?_, ?_, ?_, ?_⟩
          · show (idsOf (backspaceScan s.objects s.selected).1).Nodup
            rw [hfst]
            exact List.Nodup.sublist (List.Sublist.map Obj.id (List.filter_sublist _))
              h.nodupIds
          · show ((backspaceScan s.objects s.selected).2).Nodup
            rw [hempty]
            exact List.nodup_nil
          · intro o ho
            have ho2 : o ∈ (backspaceScan s.objects s.selected).1 := ho
            rw [hfst] at ho2
            have hsel0 : (!o.selected) = true := (List.mem_filter.mp ho2).2
            show o.selected = true ↔ o.id ∈ (backspaceScan s.objects s.selected).2
            rw [hempty]
            simp only [List.not_mem_nil, iff_false]
            intro habs
            rw [habs] at hsel0
            exact Bool.noConfusion hsel0
          · intro i hi
            have hi2 : i ∈ (backspaceScan s.objects s.selected).2 := hi
            rw [hempty] at hi2
            cases hi2
          · intro o ho
            have ho2 : o ∈ (backspaceScan s.objects s.selected).1 := ho
            rw [hfst] at ho2
            exact h.fresh o (List.mem_filter.mp ho2).1
      | escape =>
          have hred : keyPress .escape s = s := by
            simp only [keyPress, hm]
          rw [hred]
          exact h
      | other =>
          have hred : keyPress .other s = s := by
            simp only [keyPress, hm]
          rw [hred]
          exact h
  | drawWire =>
      cases k with
      | escape =>
          have hred : keyPress .escape s = { s with mode := .normal, active := none } := by
            simp only [keyPress, hm]
          rw [hred]
          exact h.transfer rfl rfl le_rfl
      | keyW => rw [show keyPress .keyW s = s by simp only [keyPress, hm]]; exact h
      | keyM => rw [show keyPress .keyM s = s by simp only [keyPress, hm]]; exact h
      | backspace => rw [show keyPress .backspace s = s by simp only [keyPress, hm]]; exact h
      | other => rw [show keyPress .other s = s by simp only [keyPress, hm]]; exact h
  | drawModule =>
      cases k with
      | escape =>
          have hred : keyPress .escape s = { s with mode := .normal, active := none } := by
            simp only [keyPress, hm]
          rw [hred]
          exact h.transfer rfl rfl le_rfl
      | keyW => rw [show keyPress .keyW s = s by simp only [keyPress, hm]]; exact h
      | keyM => rw [show keyPress .keyM s = s by simp only [keyPress, hm]]; exact h
      | backspace => rw [show keyPress .backspace s = s by simp only [keyPress, hm]]; exact h
      | other => rw [show keyPress .other s = s by simp only [keyPress, hm]]; exact h

lemma selInv_step (e : Event) (s : Canvas) (h : SelInv s) : SelInv (step e s) := by
  cases e with
  | press pos shift ctrl => exact selInv_mousePress pos shift ctrl s h
  | release pos => exact selInv_mouseRelease pos s h
  | doubleClick pos => exact selInv_mouseDoubleClick pos s h
  | move pos b => exact selInv_mouseMove pos b s h
  | key k => exact selInv_keyPress k s h

lemma selInv_initCanvas : SelInv initCanvas := by
  refine ⟨?_, ?_, ?_, ?_, ?_⟩ <;> decide

/-- Every reachable canvas satisfies the selection invariant. -/
lemma selInv_reachable (s : Canvas) (hs : Reachable s) : SelInv s := by
  induction hs with
  | init => exact selInv_initCanvas
  | tr e s1 _ ih => exact selInv_step e s1 ih

/-! ### The Normal-mode / active-reference invariant -/

/-- In Normal mode there is no active in-progress object. -/
def ModeInv (s : Canvas) : Prop := s.mode = .normal → s.active = none

lemma modeInv_step (e : Event) (s : Canvas) (h : ModeInv s) : ModeInv (step e s) := by
  cases e with
  | press pos shift ctrl =>
      show ModeInv (mousePress pos shift ctrl s)
      cases hm : s.mode with
      | normal =>
          have hred : mousePress pos shift ctrl s =
              { s with lastMousePos := some pos,
                       objects := (pressScan pos (!shift && !ctrl) s.objects s.selected).1,
                       selected := (pressScan pos (!shift && !ctrl) s.objects s.selected).2 } := by
            simp only [mousePress, hm]
          rw [hred]
          intro _
          exact h hm
      | drawWire =>
          cases ha : s.active with
          | none =>
              have hred : mousePress pos shift ctrl s =
                  { s with lastMousePos := some pos,
                           objects := s.objects ++ [mkWire s.nextId [pos, pos]],
                           active := some s.nextId, nextId := s.nextId + 1 } := by
                simp only [mousePress, hm, ha]
              rw [hred]
              intro hn
              have : s.mode = .normal := hn
              rw [hm] at this
              exact CanvasMode.noConfusion this
          | some i =>
              cases hf : findObj s.objects i with
              | none =>
                  have hred : mousePress pos shift ctrl s =
                      { s with lastMousePos := some pos } := by
                    simp only [mousePress, hm, ha, hf]
                  rw [hred]
                  intro hn
                  have : s.mode = .normal := hn
                  rw [hm] at this
                  exact CanvasMode.noConfusion this
              | some o =>
                  by_cases hw : isWire o = true
                  · have hred : mousePress pos shift ctrl s =
                        { s with lastMousePos := some pos,
                                 objects := updateObj s.objects i (objAddPoint pos) } := by
                      simp only [mousePress, hm, ha, hf, hw, if_true]
                    rw [hred]
                    intro hn
                    have : s.mode = .normal := hn
                    rw [hm] at this
                    exact CanvasMode.noConfusion this
                  · have hwf : isWire o = false := by simpa using hw
                    have hred : mousePress pos shift ctrl s =
                        { s with lastMousePos := some pos } := by
                      simp [mousePress, hm, ha, hf, hwf]
                    rw [hred]
                    intro hn
                    have : s.mode = .normal := hn
                    rw [hm] at this
                    exact CanvasMode.noConfusion this
      | drawModule =>
          cases ha : s.active with
          | none =>
              have hred : mousePress pos shift ctrl s =
                  { s with lastMousePos := some pos,
                           objects := s.objects
                             ++ [objSetSize (0, 0) (objSetPos pos (mkModule s.nextId))],
                           active := some s.nextId, nextId := s.nextId + 1 } := by
                simp only [mousePress, hm, ha]
              rw [hred]
              intro hn
              have : s.mode = .normal := hn
              rw [hm] at this
              exact CanvasMode.noConfusion this
          | some i =>
              have hred : mousePress pos shift ctrl s =
                  { s with lastMousePos := some pos } := by
                simp only [mousePress, hm, ha]
              rw [hred]
              intro hn
              have : s.mode = .normal := hn
              rw [hm] at this
              exact CanvasMode.noConfusion this
  | release pos =>
      show ModeInv (mouseRelease pos s)
      cases hm : s.mode with
      | normal =>
          have hred : mouseRelease pos s = { s with lastMousePos := some pos } := by
            simp only [mouseRelease, hm]
          rw [hred]
          intro _
          exact h hm
      | drawWire =>
          have hred : mouseRelease pos s = { s with lastMousePos := some pos } := by
            simp only [mouseRelease, hm]
          rw [hred]
          intro hn
          have : s.mode = .normal := hn
          rw [hm] at this
          exact CanvasMode.noConfusion this
      | drawModule =>
          have hred : mouseRelease pos s =
              { s with lastMousePos := some pos, active := none, mode := .normal } := by
            simp only [mouseRelease, hm]
          rw [hred]
          intro _
          rfl
  | doubleClick pos =>
      show ModeInv (mouseDoubleClick pos s)
      cases hm : s.mode with
      | normal =>
          have hred : mouseDoubleClick pos s = { s with lastMousePos := some pos } := by
            simp only [mouseDoubleClick, hm]
          rw [hred]
          intro _
          exact h hm
      | drawModule =>
          have hred : mouseDoubleClick pos s = { s with lastMousePos := some pos } := by
            simp only [mouseDoubleClick, hm]
          rw [hred]
          intro hn
          have : s.mode = .normal := hn
          rw [hm] at this
          exact CanvasMode.noConfusion this
      | drawWire =>
          have hvac : ∀ s2 : Canvas, s2.mode = s.mode → ModeInv s2 := by
            intro s2 h2
            intro hn
            rw [h2, hm] at hn
            exact CanvasMode.noConfusion hn
          cases ha : s.active with
          | none =>
              have hred : mouseDoubleClick pos s = { s with lastMousePos := some pos } := by
                simp only [mouseDoubleClick, hm, ha]
              rw [hred]
              exact hvac _ rfl
          | some i =>
              cases hf : findObj s.objects i with
              | none =>
                  have hred : mouseDoubleClick pos s = { s with lastMousePos := some pos } := by
                    simp only [mouseDoubleClick, hm, ha, hf]
                  rw [hred]
                  exact hvac _ rfl
              | some o =>
                  by_cases hw : isWire o = true
                  · cases hr : objRemovePt (-1) o with
                    | some o1 =>
                        have hred : mouseDoubleClick pos s =
                            { s with lastMousePos := some pos,
                                     objects := updateObj s.objects i
                                       (fun w => (objRemovePt (-1) w).getD w),
                                     active := none, mode := .normal } := by
                          simp only [mouseDoubleClick, hm, ha, hf, hw, if_true, hr]
                        rw [hred]
                        intro _
                        rfl
                    | none =>
                        have hred : mouseDoubleClick pos s =
                            { s with lastMousePos := some pos } := by
                          simp only [mouseDoubleClick, hm, ha, hf, hw, if_true, hr]
                        rw [hred]
                        exact hvac _ rfl
                  · have hwf : isWire o = false := by simpa using hw
                    have hred : mouseDoubleClick pos s =
                        { s with lastMousePos := some pos } := by
                      simp [mouseDoubleClick, hm, ha, hf, hwf]
                    rw [hred]
                    exact hvac _ rfl
  | move pos b =>
      show ModeInv (mouseMove pos b s)
      obtain ⟨_, _, _, h4, h5⟩ := mouseMove_fields pos b s
      intro hn
      rw [h5]
      exact h (h4.symm.trans hn)
  | key k =>
      show ModeInv (keyPress k s)
      cases hm : s.mode with
      | normal =>
          cases k with
          | keyW =>
              rw [show keyPress .keyW s = { s with mode := .drawWire, active := none } by
                simp only [keyPress, hm]]
              intro hn
              exact CanvasMode.noConfusion (show CanvasMode.drawWire = .normal from hn)
          | keyM =>
              rw [show keyPress .keyM s = { s with mode := .drawModule, active := none } by
                simp only [keyPress, hm]]
              intro hn
              exact CanvasMode.noConfusion (show CanvasMode.drawModule = .normal from hn)
          | backspace =>
              rw [show keyPress .backspace s =
                  { s with objects := (backspaceScan s.objects s.selected).1,
                           selected := (backspaceScan s.objects s.selected).2 } by
                simp only [keyPress, hm]]
              intro _
              exact h hm
          | escape =>
              rw [show keyPress .escape s = s by simp only [keyPress, hm]]
              exact h
          | other =>
              rw [show keyPress .other s = s by simp only [keyPress, hm]]
              exact h
      | drawWire =>
          cases k with
          | escape =>
              rw [show keyPress .escape s = { s with mode := .normal, active := none } by
                simp only [keyPress, hm]]
              intro _
              rfl
          | keyW => rw [show keyPress .keyW s = s by simp only [keyPress, hm]]; exact h
          | keyM => rw [show keyPress .keyM s = s by simp only [keyPress, hm]]; exact h
          | backspace => rw [show keyPress .backspace s = s by simp only [keyPress, hm]]; exact h
          | other => rw [show keyPress .other s = s by simp only [keyPress, hm]]; exact h
      | drawModule =>
          cases k with
          | escape =>
              rw [show keyPress .escape s = { s with mode := .normal, active := none } by
                simp only [keyPress, hm]]
              intro _
              rfl
          | keyW => rw [show keyPress .keyW s = s by simp only [keyPress, hm]]; exact h
          | keyM => rw [show keyPress .keyM s = s by simp only [keyPress, hm]]; exact h
          | backspace => rw [show keyPress .backspace s = s by simp only [keyPress, hm]]; exact h
          | other => rw [show keyPress .other s = s by simp only [keyPress, hm]]; exact h

/-! ### The claims about the interaction state machine -/

/-- Every reachable canvas satisfies the Normal-mode / active invariant. -/
lemma modeInv_reachable (s : Canvas) (hs : Reachable s) : ModeInv s := by
  induction hs with
  | init => intro _; rfl
  | tr e s1 _ ih => exact modeInv_step e s1 ih

/-- Claim C10: in every state reachable from the initial canvas by any
sequence of input events, whenever the mode is Normal the `active` reference
is `None`: every transition entering Normal mode clears it, and no
Normal-mode transition sets it. -/
theorem normal_mode_active_none (s : Canvas) (hs : Reachable s)
    (hm : s.mode = .normal) : s.active = none :=
  modeInv_reachable s hs hm

theorem normal_mode_active_none_witness : initCanvas.active = none :=
  normal_mode_active_none initCanvas Reachable.init rfl

/-- Claim C4: in every state reachable from the initial state (so after every
state-machine transition), an object in the scene has `selected = True`
exactly when it is a member of the selection set. -/
theorem selected_iff_in_selection (s : Canvas) (hs : Reachable s) (o : Obj)
    (ho : o ∈ s.objects) : o.selected = true ↔ o.id ∈ s.selected :=
  (selInv_reachable s hs).flagMem o ho

theorem selected_iff_in_selection_witness :
    (objSelect true (mkModule 0)).selected = true ↔
      (objSelect true (mkModule 0)).id
        ∈ (step (.press (250, 250) false false) initCanvas).selected :=
  selected_iff_in_selection (step (.press (250, 250) false false) initCanvas)
    (Reachable.tr _ _ Reachable.init) (objSelect true (mkModule 0)) (by decide)

lemma pressUpd_selected (pos : Point) (noMod : Bool) (o : Obj) :
    (pressUpd pos noMod o).selected = (objInBounds o pos || (o.selected && !noMod)) := by
  simp only [pressUpd, objSelect]
  by_cases h1 : objInBounds o pos = true
  · rw [h1]
    simp only [if_true]
    cases hsel : o.selected <;> simp [hsel]
  · have h1f : objInBounds o pos = false := by simpa using h1
    rw [h1f]
    cases hsel : o.selected <;> cases hnm : noMod <;> simp [hsel, hnm]

/-- Claim C7: a pointer-down in Normal mode visits every scene object with no
early exit — the resulting scene is the pointwise map of the per-object rule
— and, for every object, the object's id is in the resulting selection
exactly when the object was hit, or it was already selected and Shift or
Control is held; so a hit object is (newly) selected and never toggled off,
a missed selected object is deselected exactly when no modifier is held, and
several overlapping objects can all be selected by one press. -/
theorem normal_press_selects_all_hits (s : Canvas) (pos : Point) (shift ctrl : Bool)
    (hs : Reachable s) (hm : s.mode = .normal) :
    (step (.press pos shift ctrl) s).objects
        = s.objects.map (pressUpd pos (!shift && !ctrl)) ∧
    (∀ o, o ∈ s.objects →
      (o.id ∈ (step (.press pos shift ctrl) s).selected ↔
        (objInBounds o pos || (o.selected && (shift || ctrl))) = true)) := by
  have hred : step (.press pos shift ctrl) s =
      { s with lastMousePos := some pos,
               objects := (pressScan pos (!shift && !ctrl) s.objects s.selected).1,
               selected := (pressScan pos (!shift && !ctrl) s.objects s.selected).2 } := by
    simp only [step, mousePress, hm]
  have hinv1 : SelInv (step (.press pos shift ctrl) s) :=
    selInv_step _ s (selInv_reachable s hs)
  constructor
  · rw [hred]
    show (pressScan pos (!shift && !ctrl) s.objects s.selected).1 = _
    exact pressScan_fst pos _ s.objects s.selected
  · intro o ho
    have hmemnew : pressUpd pos (!shift && !ctrl) o ∈ (step (.press pos shift ctrl) s).objects := by
      rw [hred]
      show pressUpd pos (!shift && !ctrl) o
          ∈ (pressScan pos (!shift && !ctrl) s.objects s.selected).1
      rw [pressScan_fst]
      exact List.mem_map_of_mem _ ho
    have hflag := hinv1.flagMem _ hmemnew
    rw [pressUpd_id] at hflag
    rw [← hflag, pressUpd_selected]
    have hb : (! (!shift && !ctrl)) = (shift || ctrl) := by
      cases shift <;> cases ctrl <;> rfl
    rw [hb]

theorem normal_press_selects_all_hits_witness :
    (step (.press (250, 250) false false) initCanvas).objects
        = initCanvas.objects.map (pressUpd (250, 250) (!false && !false)) ∧
    ((mkModule 0).id ∈ (step (.press (250, 250) false false) initCanvas).selected ↔
      (objInBounds (mkModule 0) (250, 250)
        || ((mkModule 0).selected && (false || false))) = true) := by
  have h := normal_press_selects_all_hits initCanvas (250, 250) false false Reachable.init rfl
  exact ⟨h.1, h.2 (mkModule 0) (by decide)⟩

lemma length_filter_not_add_countP (objs : List Obj) :
    (objs.filter (fun o => !o.selected)).length + objs.countP (fun o => o.selected)
      = objs.length := by
  induction objs with
  | nil => rfl
  | cons o t ih =>
      cases hos : o.selected <;> simp [List.filter_cons, List.countP_cons, hos] <;> omega

/-- Claim C8: a Backspace key event in Normal mode removes exactly the
selected objects from the scene — the scene becomes the unselected objects in
order, so its size drops by the number of selected objects — and the
selection set becomes empty. -/
theorem backspace_deletes_selected (s : Canvas) (hs : Reachable s)
    (hm : s.mode = .normal) :
    (step (.key .backspace) s).objects = s.objects.filter (fun o => !o.selected) ∧
    (step (.key .backspace) s).objects.length + s.objects.countP (fun o => o.selected)
        = s.objects.length ∧
    (step (.key .backspace) s).selected = [] := by
  have h := selInv_reachable s hs
  have hred : step (.key .backspace) s =
      { s with objects := (backspaceScan s.objects s.selected).1,
               selected := (backspaceScan s.objects s.selected).2 } := by
    simp only [step, keyPress, hm]
  obtain ⟨rnd, rmem⟩ := backspaceScan_snd s.objects s.selected h.nodupSel
  have hempty : (backspaceScan s.objects s.selected).2 = [] := by
    apply List.eq_nil_iff_forall_not_mem.mpr
    intro j hj
    obtain ⟨hjsel, hall⟩ := (rmem j).mp hj
    obtain ⟨o2, ho2, hid2⟩ := List.mem_map.mp (h.selObj j hjsel)
    exact hall o2 ho2 ((h.flagMem o2 ho2).mpr (hid2 ▸ hjsel)) hid2
  have hfst := backspaceScan_fst s.objects s.selected
  refine ⟨?_, ?_, ?_⟩
  · rw [hred]
    exact hfst
  · rw [hred]
    show (backspaceScan s.objects s.selected).1.length + _ = _
    rw [hfst]
    exact length_filter_not_add_countP s.objects
  · rw [hred]
    exact hempty

theorem backspace_deletes_selected_witness :
    (step (.key .backspace) (step (.press (100, 300) true false)
        (step (.press (250, 250) false false) initCanvas))).objects
      = (step (.press (100, 300) true false)
          (step (.press (250, 250) false false) initCanvas)).objects.filter
            (fun o => !o.selected) ∧
    (step (.key .backspace) (step (.press (100, 300) true false)
        (step (.press (250, 250) false false) initCanvas))).objects.length
      + (step (.press (100, 300) true false)
          (step (.press (250, 250) false false) initCanvas)).objects.countP
            (fun o => o.selected)
      = (step (.press (100, 300) true false)
          (step (.press (250, 250) false false) initCanvas)).objects.length ∧
    (step (.key .backspace) (step (.press (100, 300) true false)
        (step (.press (250, 250) false false) initCanvas))).selected = [] :=
  backspace_deletes_selected _
    (Reachable.tr _ _ (Reachable.tr _ _ Reachable.init)) (by decide)

end CircuitDraw
